import Mathlib

/-!
Verification of the core components of the goo.gl scanner (`goo.gl.py`):
the combinatorial sequencer, the resolution classifier, the warning-page
extractor, the result-ledger resume logic and the scan driver, shallowly
embedded as executable Lean definitions.  Identifiers (URL suffixes) are
embedded as `List Char`; CSV rows as `List String`; the HTTP exchange of
one request as an explicit datatype.
-/

set_option maxHeartbeats 1000000

namespace GooGl

/-- The fixed 62-symbol alphabet used by the scanner,
Python `string.ascii_letters + string.digits`: 26 lowercase letters,
then 26 uppercase letters, then 10 digits (source line 253). -/
def chars : List Char :=
  "abcdefghijklmnopqrstuvwxyzABCDEFGHIJKLMNOPQRSTUVWXYZ0123456789".toList

/-- Position of the first occurrence of a character in a list.  This models
Python `str.index`, with the `ValueError` on absence reported as `none`
(the callers in the source catch that exception). -/
def listIdx : List Char → Char → Option Nat
  | [], _ => none
  | c :: rest, d => if d = c then some 0 else (listIdx rest d).map (fun i => i + 1)

/-- An identifier is over the alphabet when each of its characters is. -/
def validSuffix (s : List Char) : Prop := ∀ c ∈ s, c ∈ chars

instance (s : List Char) : Decidable (validSuffix s) :=
  List.decidableBAll _ s

/-- Accumulating pass of `_url_suffix_to_index` (source lines 364-374):
base-62 value of a suffix, most-significant symbol first, `none` as soon
as some character is not in the alphabet (Python raises `ValueError` and
the function returns 0). -/
def suffixIndexAux : List Char → Option Nat
  | [] => some 0
  | c :: rest =>
    match listIdx chars c, suffixIndexAux rest with
    | some d, some m => some (d * 62 ^ rest.length + m)
    | _, _ => none

/-- `_url_suffix_to_index` (source lines 359-376): index of a suffix in the
iteration sequence; returns 0 when the length does not match the scan
length or when some character is outside the alphabet. -/
def url_suffix_to_index (suffix : List Char) (length : Nat) : Nat :=
  if suffix.length = length then (suffixIndexAux suffix).getD 0 else 0

/-- Digit value of a symbol: its position in the fixed alphabet
(0 for symbols outside the alphabet, which only occurs on inputs the
source maps to its 0 fallback). -/
def rank (c : Char) : Nat := (listIdx chars c).getD 0

/-- Base-62 ordinal of an identifier, most-significant symbol first, written
the way the spec states it (each symbol's alphabet position is its digit
value).  Used to compare the source's `_url_suffix_to_index` with the
spec's `encode`. -/
def base62Val : List Char → Nat
  | [] => 0
  | c :: rest => rank c * 62 ^ rest.length + base62Val rest

/-- Modelled from the spec: digits of `decode(ordinal, length)`, the inverse
base-62 expansion, zero-padded on the low end with the alphabet's first
symbol.  The source has no standalone decode; its enumeration order via
`itertools.product` realizes the same mapping. -/
def decodeAux : Nat → Nat → List Char
  | _, 0 => []
  | n, l + 1 => chars.getD (n / 62 ^ l) 'a' :: decodeAux (n % 62 ^ l) l

/-- Modelled from the spec: `decode(ordinal, length)`, failing (as `none`)
when the ordinal is out of range for the length. -/
def decode (n : Nat) (length : Nat) : Option (List Char) :=
  if n < 62 ^ length then some (decodeAux n length) else none

/-- Lexicographic precedence of equal-length identifiers in the fixed
alphabet order: either the heads differ at ranked symbols, or the heads
agree and the tails are ordered. -/
inductive LexPrec : List Char → List Char → Prop
  | head (a b : Char) (s t : List Char) :
      rank a < rank b → s.length = t.length → LexPrec (a :: s) (b :: t)
  | tail (a : Char) (s t : List Char) : LexPrec s t → LexPrec (a :: s) (a :: t)

/-- Result of the carry-propagation pass of `_get_next_url_suffix`
(source lines 330-357): the incremented suffix, a carry out of the top
symbol (with every processed position reset to the first alphabet symbol),
or the `ValueError` raised on a symbol outside the alphabet. -/
inductive IncrRes
  | ok (l : List Char)
  | carry (l : List Char)
  | bad
deriving DecidableEq

/-- Right-to-left base-62 increment with carry, processing the rightmost
symbol first exactly as the Python loop does: positions to the left of the
place where the carry stops are neither touched nor validated. -/
def incr3 : List Char → IncrRes
  | [] => .carry []
  | c :: rest =>
    match incr3 rest with
    | .ok r => .ok (c :: r)
    | .bad => .bad
    | .carry r =>
      match listIdx chars c with
      | none => .bad
      | some d =>
        if d + 1 < 62 then .ok (chars.getD (d + 1) 'a' :: r)
        else .carry (chars.getD 0 'a' :: r)

/-- `_get_next_url_suffix` (source lines 325-357): next URL suffix in
sequence, `none` on a length mismatch, an out-of-alphabet symbol, or a
carry out of the whole suffix. -/
def _get_next_url_suffix (current_suffix : List Char) (length : Nat) :
    Option (List Char) :=
  if current_suffix.length = length then
    match incr3 current_suffix with
    | .ok r => some r
    | _ => none
  else none

/-- Match a literal list of characters at the front of a list, returning the
remainder on success. -/
def strTakes : List Char → List Char → Option (List Char)
  | [], rest => some rest
  | _ :: _, [] => none
  | p :: ps, c :: cs => if p = c then strTakes ps cs else none

/-- Substring search over character lists; models Python's `in` operator on
strings (all patterns used by the source are nonempty). -/
def subSearch (pat : List Char) : List Char → Bool
  | [] => (strTakes pat []).isSome
  | c :: rest => (strTakes pat (c :: rest)).isSome || subSearch pat rest

/-- Python `pat in s`. -/
def containsSubstr (s pat : String) : Bool := subSearch pat.toList s.toList

/-- Python `s.startswith(pre)`. -/
def strStarts (s pre : String) : Bool := (strTakes pre.toList s.toList).isSome

/-- Python `s.lower()`; the strings the source lowers are ASCII, where the
two agree. -/
def strLower (s : String) : String := String.mk (s.toList.map Char.toLower)

/-- The whitespace characters stripped by Python `str.strip` and matched by
a regex whitespace class. -/
def isSpaceChar (c : Char) : Bool :=
  c == ' ' || c == Char.ofNat 9 || c == Char.ofNat 10 || c == Char.ofNat 13 ||
  c == Char.ofNat 11 || c == Char.ofNat 12

/-- Python `s.strip()`. -/
def strTrim (s : String) : String :=
  String.mk ((s.toList.dropWhile isSpaceChar).reverse.dropWhile isSpaceChar).reverse

/-- Python `str.replace`: replace every non-overlapping occurrence, left to
right; fuelled by the input length, which each step strictly consumes. -/
def listReplace (pat rep : List Char) : Nat → List Char → List Char
  | 0, s => s
  | _ + 1, [] => []
  | f + 1, c :: rest =>
    match strTakes pat (c :: rest) with
    | some rest' => rep ++ listReplace pat rep f rest'
    | none => c :: listReplace pat rep f rest

/-- Python `s.replace(pat, rep)`. -/
def strReplace (s pat rep : String) : String :=
  String.mk (listReplace pat.toList rep.toList s.toList.length s.toList)

/-- Python `s.split(sep)` for a nonempty separator: accumulate the current
part (kept reversed) and cut at each occurrence of the separator. -/
def splitAux (pat : List Char) : Nat → List Char → List Char → List (List Char)
  | 0, acc, s => [acc.reverse ++ s]
  | _ + 1, acc, [] => [acc.reverse]
  | f + 1, acc, c :: rest =>
    match strTakes pat (c :: rest) with
    | some rest' => acc.reverse :: splitAux pat f [] rest'
    | none => splitAux pat f (c :: acc) rest

/-- Python `s.split(sep)`. -/
def strSplitOn (s pat : String) : List String :=
  (splitAux pat.toList (s.toList.length + 1) [] s.toList).map String.mk

/-- Modelled from the spec: HTML-entity decoding (the source calls Python's
`html.unescape`, which is not part of the repository), restricted to the
basic named entities relevant to redirect URLs. -/
def htmlEntities : List (List Char × Char) :=
  [("&amp;".toList, '&'), ("&lt;".toList, '<'), ("&gt;".toList, '>'),
   ("&quot;".toList, '"'), ("&#39;".toList, Char.ofNat 39),
   ("&apos;".toList, Char.ofNat 39)]

/-- One left-to-right pass decoding the entities of `htmlEntities`. -/
def unescapeAux : Nat → List Char → List Char
  | 0, s => s
  | _ + 1, [] => []
  | f + 1, c :: rest =>
    match htmlEntities.findSome? (fun e =>
        (strTakes e.1 (c :: rest)).map (fun r => (e.2, r))) with
    | some (d, rest') => d :: unescapeAux f rest'
    | none => c :: unescapeAux f rest

/-- Modelled from the spec: Python `html.unescape` on the entity subset of
`htmlEntities`. -/
def html_unescape (s : String) : String :=
  String.mk (unescapeAux s.toList.length s.toList)

/-- Regular-expression abstract syntax covering exactly the constructs used
by the source's extraction patterns: literals, character classes (possibly
negated), sequencing, alternation, greedy star / plus / option, and a
single capturing group. -/
inductive RE
  | eps
  | lit (c : Char)
  | cls (neg : Bool) (set : List Char)
  | seq (a b : RE)
  | alt (a b : RE)
  | star (a : RE)
  | plus (a : RE)
  | opt (a : RE)
  | group (a : RE)

/-- Case-insensitive character comparison (the source compiles every
pattern with `re.IGNORECASE`). -/
def eqCI (c d : Char) : Bool := c.toLower == d.toLower

/-- Character-class membership.  None of the source's classes contains a
cased letter, so plain comparison agrees with `re.IGNORECASE` here. -/
def clsMatch (neg : Bool) (set : List Char) (d : Char) : Bool :=
  if neg then !(set.contains d) else set.contains d

/-- First capture wins (each source pattern has at most one group). -/
def capJoin : Option (List Char) → Option (List Char) → Option (List Char)
  | some c, _ => some c
  | none, c => c

/-- Greedy Kleene-star iteration of a matcher, longest consumption first,
the empty match last.  Only iterations that consume at least one character
recurse, so fuel `length + 1` never runs out and the fuel is merely a
structural-termination device. -/
def starLoop (m : List Char → List (List Char × Option (List Char))) :
    Nat → List Char → List (List Char × Option (List Char))
  | 0, s => [(s, none)]
  | f + 1, s =>
    ((m s).filter (fun p => p.1.length < s.length)).flatMap
      (fun p => (starLoop m f p.1).map (fun q => (q.1, capJoin p.2 q.2)))
    ++ [(s, none)]

/-- Backtracking matcher: all ways to match `re` at the front of the input,
as pairs of (remaining suffix, captured group), in the priority order of
Python's engine — alternation prefers its left branch and quantifiers are
greedy. -/
def reMatch : RE → List Char → List (List Char × Option (List Char))
  | .eps, s => [(s, none)]
  | .lit _, [] => []
  | .lit c, d :: rest => if eqCI c d then [(rest, none)] else []
  | .cls _ _, [] => []
  | .cls neg set, d :: rest => if clsMatch neg set d then [(rest, none)] else []
  | .seq a b, s =>
    (reMatch a s).flatMap
      (fun p => (reMatch b p.1).map (fun q => (q.1, capJoin p.2 q.2)))
  | .alt a b, s => reMatch a s ++ reMatch b s
  | .opt a, s => reMatch a s ++ [(s, none)]
  | .star a, s => starLoop (reMatch a) (s.length + 1) s
  | .plus a, s =>
    (reMatch a s).flatMap
      (fun p => (starLoop (reMatch a) (p.1.length + 1) p.1).map
        (fun q => (q.1, capJoin p.2 q.2)))
  | .group a, s =>
    (reMatch a s).map (fun p => (p.1, some (s.take (s.length - p.1.length))))

/-- Python `re.findall(pattern, body)` with the leftmost, non-overlapping
scan: try to match at the current position; on success record the group
(or, for a groupless pattern, the whole match) and resume after it,
otherwise advance one character. -/
def findallAux (re : RE) : Nat → List Char → List (List Char)
  | 0, _ => []
  | f + 1, s =>
    match (reMatch re s).head? with
    | some p =>
      let cap := match p.2 with
        | some c => c
        | none => s.take (s.length - p.1.length)
      if p.1.length < s.length then cap :: findallAux re f p.1
      else
        match s with
        | [] => [cap]
        | _ :: t => cap :: findallAux re f t
    | none =>
      match s with
      | [] => []
      | _ :: t => findallAux re f t

/-- Python `re.findall` on a body string. -/
def findall (re : RE) (body : String) : List String :=
  (findallAux re (body.toList.length + 1) body.toList).map String.mk

/-- A regex matching a literal string (case-insensitively, like every
literal in the source's patterns). -/
def rstr (s : String) : RE :=
  s.toList.foldr (fun c acc => RE.seq (.lit c) acc) .eps

/-- The characters of the regex class `\s` (ASCII range). -/
def wsChars : List Char :=
  [' ', Char.ofNat 9, Char.ofNat 10, Char.ofNat 13, Char.ofNat 11, Char.ofNat 12]

/-- Double and single quote, the class `["\']`. -/
def quoteChars : List Char := ['"', Char.ofNat 39]

/-- The characters of the regex class `\d`. -/
def digitChars : List Char := ['0', '1', '2', '3', '4', '5', '6', '7', '8', '9']

/-- The stop class of the query-parameter patterns. -/
def qparamStop : List Char := '&' :: wsChars ++ quoteChars

/-- JSON-style pattern 1 of the extractor (source line 92). -/
def pat1 : RE :=
  .seq (rstr "\"redirect_url\":\"") (.seq (.group (.plus (.cls true ['"']))) (.lit '"'))

/-- JSON-style pattern 2 (source line 93). -/
def pat2 : RE :=
  .seq (rstr "\"url\":\"") (.seq (.group (.plus (.cls true ['"']))) (.lit '"'))

/-- JSON-style pattern 3 (source line 94). -/
def pat3 : RE :=
  .seq (rstr "\"target\":\"") (.seq (.group (.plus (.cls true ['"']))) (.lit '"'))

/-- Query-parameter pattern 4 (source line 97). -/
def pat4 : RE := .seq (rstr "redirect_url=") (.group (.plus (.cls true qparamStop)))

/-- Query-parameter pattern 5 (source line 98). -/
def pat5 : RE := .seq (rstr "url=") (.group (.plus (.cls true qparamStop)))

/-- Query-parameter pattern 6 (source line 99). -/
def pat6 : RE := .seq (rstr "continue=") (.group (.plus (.cls true qparamStop)))

/-- The sub-expression `https?://` shared by the anchor patterns and the
fallback token scan. -/
def anyHttpUrl : RE := .seq (rstr "http") (.seq (.opt (.lit 's')) (rstr "://"))

/-- The captured group `(https?://[^"]+)` of the anchor patterns. -/
def hrefGroup : RE := .group (.seq anyHttpUrl (.plus (.cls true ['"'])))

/-- Anchor pattern 7 (source line 102). -/
def pat7 : RE :=
  .seq (rstr "href=\"") (.seq hrefGroup (.seq (.lit '"')
    (.seq (.star (.cls true ['>'])) (.seq (.lit '>') (rstr "Continue")))))

/-- Anchor pattern 8 (source line 103). -/
def pat8 : RE :=
  .seq (rstr "href=\"") (.seq hrefGroup (.seq (.lit '"')
    (.seq (.star (.cls true ['>'])) (.seq (.lit '>')
      (.seq (.star (.cls false wsChars)) (rstr "Continue"))))))

/-- Anchor pattern 9 (source line 104). -/
def pat9 : RE :=
  .seq (rstr "href=\"") (.seq hrefGroup (.seq (.lit '"')
    (.seq (.star (.cls true ['>'])) (.seq (rstr "class=\"")
      (.seq (.star (.cls true ['"'])) (.seq (rstr "continue")
        (.seq (.star (.cls true ['"'])) (.lit '"'))))))))

/-- The shared tail `\s*=\s*["\']([^"\']+)["\']` of the script patterns. -/
def jsAssignTail : RE :=
  .seq (.star (.cls false wsChars)) (.seq (.lit '=')
    (.seq (.star (.cls false wsChars)) (.seq (.cls false quoteChars)
      (.seq (.group (.plus (.cls true quoteChars))) (.cls false quoteChars)))))

/-- Script pattern 10 (source line 107). -/
def pat10 : RE := .seq (rstr "window.location.href") jsAssignTail

/-- Script pattern 11 (source line 108). -/
def pat11 : RE := .seq (rstr "window.location") jsAssignTail

/-- Script pattern 12 (source line 109). -/
def pat12 : RE := .seq (rstr "location.href") jsAssignTail

/-- Meta-refresh pattern 13 (source line 112). -/
def pat13 : RE :=
  .seq (rstr "content=\"0;url=") (.seq (.group (.plus (.cls true ['"']))) (.lit '"'))

/-- Meta-refresh pattern 14 (source line 113). -/
def pat14 : RE :=
  .seq (rstr "content=\"") (.seq (.plus (.cls false digitChars)) (.seq (.lit ';')
    (.seq (.star (.cls false wsChars)) (.seq (rstr "url=")
      (.seq (.group (.plus (.cls true ['"']))) (.lit '"'))))))

/-- The ordered strategy-pattern list of the extractor (source lines
90-114). -/
def warning_patterns : List RE :=
  [pat1, pat2, pat3, pat4, pat5, pat6, pat7, pat8, pat9, pat10, pat11, pat12,
   pat13, pat14]

/-- The bare-URL token pattern of the fallback scan (source line 155). -/
def tokenStop : List Char := wsChars ++ ['<', '>', '"', Char.ofNat 39]

/-- The fallback token regex, `https?://` followed by non-delimiters. -/
def url_token_re : RE := .seq anyHttpUrl (.plus (.cls true tokenStop))

/-- The deny-list of the shortening service's own infrastructure domains
(source lines 122-126). -/
def skip_domains : List String :=
  ["google.com", "goo.gl", "googleapis.com", "googleusercontent.com",
   "gstatic.com", "googletagmanager.com", "googlesyndication.com",
   "doubleclick.net", "googlebots.com"]

/-- `is_valid_redirect_url` (source lines 116-137): the checks run in the
source's order — minimum length, then the deny-list test (a plain
substring test over the whole lowercased URL), then the scheme test.  An
empty candidate is already rejected by the length test. -/
def is_valid_redirect_url (url : String) : Bool :=
  if url.length < 10 then false
  else if skip_domains.any (fun domain => containsSubstr (strLower url) domain) then
    false
  else if !(strStarts url "http://" || strStarts url "https://") then false
  else true

/-- The per-candidate normalization of the first extraction tier (source
lines 143-148): strip, decode the escaped separators, then decode HTML
entities. -/
def decodeCandidate (m : String) : String :=
  html_unescape (strReplace (strReplace (strReplace (strReplace (strTrim m)
    "\\u003d" "=") "\\u0026" "&") "%3D" "=") "%26" "&")

/-- Inner loop of the first tier (source lines 142-152): the first match
whose normalized form passes validation. -/
def tier1Matches : List String → Option String
  | [] => none
  | m :: rest =>
    let url := decodeCandidate m
    if is_valid_redirect_url url then some url else tier1Matches rest

/-- Outer loop of the first tier over the ordered strategy patterns
(source lines 140-152). -/
def tier1Loop : List RE → String → Option String
  | [], _ => none
  | p :: ps, body =>
    match tier1Matches (findall p body) with
    | some url => some url
    | none => tier1Loop ps body

/-- `_extract_redirect_from_warning_page` (source lines 87-185): the
strategy tier followed by the bare-token fallback, which validates each
raw token, accumulates its HTML-unescaped form, and returns the first
accumulated URL (debug-only logging and file dumps are effects outside
the embedding). -/
def _extract_redirect_from_warning_page (html_content : String) : Option String :=
  match tier1Loop warning_patterns html_content with
  | some url => some url
  | none =>
    let all_urls := findall url_token_re html_content
    let valid_urls := all_urls.foldl
      (fun acc url =>
        if is_valid_redirect_url url then acc ++ [html_unescape url] else acc) []
    valid_urls.head?

/-- One HTTP response as the classifier observes it: status code, the
`Location` header (absent modelled as `none`; `headers.get` then yields
the empty string), body text, and the final response URL. -/
structure HttpResponse where
  status : Nat
  location : Option String
  body : String
  url : String
deriving DecidableEq

/-- The transport-level failures the classifier catches, in the order of
the source's `except` clauses. -/
inductive TransportError
  | timeout
  | connectionError
  | requestException (msg : String)
  | valueOrKeyError (msg : String)
deriving DecidableEq

/-- The outcome of one HTTP exchange: a response, or a caught exception. -/
inductive ExchangeResult
  | ok (response : HttpResponse)
  | err (e : TransportError)
deriving DecidableEq

/-- `resolve_goo_gl_url` (source lines 187-239): the destination / status
classification of one exchange, rule by rule in the source's order. -/
def resolve_goo_gl_url : ExchangeResult → String × String
  | .err .timeout => ("TIMEOUT", "request_timeout")
  | .err .connectionError => ("CONNECTION_ERROR", "connection_failed")
  | .err (.requestException msg) => ("REQUEST_ERROR: " ++ msg, "request_exception")
  | .err (.valueOrKeyError msg) => ("UNEXPECTED_ERROR: " ++ msg, "unexpected_error")
  | .ok r =>
    if r.status = 200 then
      if containsSubstr r.body "Dynamic Link Not Found" ||
          containsSubstr (strLower r.body) "not found" then
        ("NOT_FOUND", "link_not_found")
      else if containsSubstr r.body "This link will no longer work" ||
          containsSubstr r.body "goo.gl links will no longer function" then
        match _extract_redirect_from_warning_page r.body with
        | some redirect_url => (redirect_url, "resolved_from_warning")
        | none => ("WARNING_PAGE_NO_EXTRACT", "warning_page_parse_failed")
      else (r.url, "direct_200")
    else if r.status ∈ [301, 302, 303, 307, 308] then
      let redirect_url := r.location.getD ""
      if redirect_url ≠ "" then (redirect_url, "direct_redirect")
      else ("NO_LOCATION_HEADER", "redirect_without_location")
    else if r.status = 404 then ("NOT_FOUND", "404_error")
    else ("HTTP_" ++ toString r.status, "http_error_" ++ toString r.status)

/-- Loop body of `_find_last_processed_url` (source lines 66-74): update
the last-seen identifier when the row has a first field containing the
service separator and the extracted suffix has the scanned length. -/
def resumeStep (length : Nat) (last_url : Option String) (row : List String) :
    Option String :=
  match row with
  | [] => last_url
  | short_url :: _ =>
    if containsSubstr short_url "/goo.gl/" then
      let suffix := (strSplitOn short_url "/goo.gl/").getLastD short_url
      if suffix.length = length then some suffix else last_url
    else last_url

/-- `_find_last_processed_url` (source lines 55-85), on the parsed rows of
the CSV file: skip the header row, scan every record keeping the last
matching identifier, and return it only if it is truthy (source line 76,
`if last_url:` — a matched empty suffix, possible only at requested
length 0, is discarded and the function falls through to `None`).  A
missing or malformed file reads as the empty row list, for which the
Python exception handler likewise yields `none`. -/
def _find_last_processed_url (file_rows : List (List String)) (length : Nat) :
    Option String :=
  match file_rows with
  | [] => none
  | _header :: records =>
    match records.foldl (resumeStep length) none with
    | some last_url => if last_url ≠ "" then some last_url else none
    | none => none

/-- The identifier of one record when it matches the requested length: the
filter the spec's `findResumePoint` describes, used to state what the
scan of the ledger returns. -/
def matchingRecord (length : Nat) (row : List String) : Option String :=
  match row with
  | [] => none
  | short_url :: _ =>
    if containsSubstr short_url "/goo.gl/" then
      let suffix := (strSplitOn short_url "/goo.gl/").getLastD short_url
      if suffix.length = length then some suffix else none
    else none

/-- Modelled from the spec: the host component of an http(s) candidate URL
(the text between the scheme and the first slash), used to state the
spec's host-based deny-list condition, which the source does not
implement. -/
def urlHost (url : String) : String :=
  let rest :=
    if strStarts url "https://" then String.mk (url.toList.drop 8)
    else if strStarts url "http://" then String.mk (url.toList.drop 7)
    else url
  (strSplitOn rest "/").headD ""

/-- The transient scan state: the ledger rows written so far plus the two
counters of the driver. -/
structure ScanState where
  ledger : List (List String)
  processed_count : Nat
  found_count : Nat
deriving DecidableEq

/-- `save_result` (source lines 241-249) as a ledger transformation: append
one row unless the skip flag is set and the status is in the not-found
set. -/
def save_result (skip_404 : Bool) (ledger : List (List String))
    (short_url destination_url status timestamp : String) : List (List String) :=
  if skip_404 = true ∧ (status = "404_error" ∨ status = "link_not_found") then
    ledger
  else ledger ++ [[short_url, destination_url, status, timestamp]]

/-- One processed identifier of the scan loop (source lines 296-307):
persist through `save_result`, then update the two counters. -/
def scan_step (skip_404 : Bool) (ts : String) (st : ScanState)
    (short_url destination_url status : String) : ScanState :=
  { ledger := save_result skip_404 st.ledger short_url destination_url status ts
    processed_count := st.processed_count + 1
    found_count :=
      if status ∉ (["link_not_found", "404_error"] : List String) then
        st.found_count + 1
      else st.found_count }

/-- The scan loop (source lines 283-318) over the remaining combinations,
parameterized by the resolver (the network is outside the embedding, as
are logging and the inter-request delay): combinations are skipped until
the one equal to `start_from` is seen, then every combination is resolved
and recorded. -/
def scanLoop (resolver : String → String × String) (skip_404 : Bool) (ts : String)
    (start_from : Option String) :
    List (List Char) → ScanState → Bool → ScanState
  | [], st, _ => st
  | combo :: rest, st, found_start =>
    let url_suffix := String.mk combo
    if found_start = false ∧ some url_suffix ≠ start_from then
      scanLoop resolver skip_404 ts start_from rest st false
    else
      let short_url := "https://goo.gl/" ++ url_suffix
      let res := resolver short_url
      scanLoop resolver skip_404 ts start_from rest
        (scan_step skip_404 ts st short_url res.1 res.2) true

/-- `itertools.product(chars, repeat=length)`: every length-`n` combination
in lexicographic order, leftmost position varying slowest. -/
def allCombos : Nat → List (List Char)
  | 0 => [[]]
  | n + 1 => chars.flatMap (fun c => (allCombos n).map (fun combo => c :: combo))

/-- `scan_url_combinations` (source lines 251-323): resolve the starting
point (auto-resume from the ledger rows when no explicit start is given,
advancing past the last processed suffix and restarting from the beginning
when the sequence is exhausted), then run the loop over all combinations.
The KeyboardInterrupt path only reports progress and is outside the state
transformation. -/
def scan_url_combinations (resolver : String → String × String) (skip_404 : Bool)
    (ts : String) (file_rows : List (List String)) (length : Nat)
    (start_from : Option String) (st : ScanState) : ScanState :=
  let start :=
    match start_from with
    | some s => some s
    | none =>
      match _find_last_processed_url file_rows length with
      | some last =>
        match _get_next_url_suffix last.toList length with
        | some nxt => some (String.mk nxt)
        | none => none
      | none => none
  scanLoop resolver skip_404 ts start (allCombos length) st start.isNone

theorem listIdx_lt {l : List Char} {c : Char} :
    ∀ {i : Nat}, listIdx l c = some i → i < l.length := by
  induction l with
  | nil => intro i h; simp [listIdx] at h
  | cons a rest ih =>
    intro i h
    by_cases hc : c = a
    · simp [listIdx, hc] at h
      simp only [List.length_cons]
      omega
    · simp [listIdx, hc, Option.map_eq_some'] at h
      obtain ⟨j, hj, hji⟩ := h
      have := ih hj
      simp only [List.length_cons]
      omega

theorem listIdx_getD {l : List Char} {c d : Char} :
    ∀ {i : Nat}, listIdx l c = some i → l.getD i d = c := by
  induction l with
  | nil => intro i h; simp [listIdx] at h
  | cons a rest ih =>
    intro i h
    by_cases hc : c = a
    · simp [listIdx, hc] at h
      subst h
      simp [hc]
    · simp [listIdx, hc, Option.map_eq_some'] at h
      obtain ⟨j, hj, hji⟩ := h
      subst hji
      simpa using ih hj

theorem listIdx_of_mem {l : List Char} {c : Char} (h : c ∈ l) :
    ∃ i, listIdx l c = some i := by
  induction l with
  | nil => simp at h
  | cons a rest ih =>
    by_cases hc : c = a
    · exact ⟨0, by simp [listIdx, hc]⟩
    · have hm : c ∈ rest := by
        rcases List.mem_cons.mp h with h' | h'
        · exact absurd h' hc
        · exact h'
      obtain ⟨j, hj⟩ := ih hm
      exact ⟨j + 1, by simp [listIdx, hc, hj]⟩

theorem getD_mem {l : List Char} {i : Nat} (d : Char) (h : i < l.length) :
    l.getD i d ∈ l := by
  induction l generalizing i with
  | nil => simp at h
  | cons a rest ih =>
    cases i with
    | zero => simp
    | succ j =>
      have : j < rest.length := by simpa using h
      simpa using Or.inr (ih this)

theorem mem_of_listIdx {l : List Char} {c : Char} {i : Nat}
    (h : listIdx l c = some i) : c ∈ l := by
  have hv := listIdx_getD (d := 'a') h
  have := getD_mem 'a' (listIdx_lt h)
  rwa [hv] at this

theorem chars_length : chars.length = 62 := by decide

theorem listIdx_chars_getD : ∀ i < 62, listIdx chars (chars.getD i 'a') = some i := by
  decide

/-- On alphabet-valid identifiers the accumulating pass succeeds with the
spec's base-62 value, which is within range for the length. -/
theorem suffixIndexAux_eq_some :
    ∀ (s : List Char), validSuffix s →
      suffixIndexAux s = some (base62Val s) ∧ base62Val s < 62 ^ s.length := by
  intro s hs
  induction s with
  | nil => exact ⟨rfl, by simp [base62Val]⟩
  | cons c rest ih =>
    have hc : c ∈ chars := hs c (List.mem_cons_self c rest)
    have hrest : validSuffix rest := fun x hx => hs x (List.mem_cons_of_mem _ hx)
    obtain ⟨d, hd⟩ := listIdx_of_mem hc
    obtain ⟨ihv, ihb⟩ := ih hrest
    have hrank : rank c = d := by simp [rank, hd]
    have hdlt : d < 62 := by
      have := listIdx_lt hd
      rwa [chars_length] at this
    constructor
    · simp [suffixIndexAux, hd, ihv, base62Val, hrank]
    · show rank c * 62 ^ rest.length + base62Val rest < 62 ^ (rest.length + 1)
      have h1 : rank c * 62 ^ rest.length + base62Val rest
          < (rank c + 1) * 62 ^ rest.length := by
        have := Nat.add_lt_add_left ihb (rank c * 62 ^ rest.length)
        calc rank c * 62 ^ rest.length + base62Val rest
            < rank c * 62 ^ rest.length + 62 ^ rest.length := this
          _ = (rank c + 1) * 62 ^ rest.length := by ring
      have h2 : (rank c + 1) * 62 ^ rest.length ≤ 62 * 62 ^ rest.length := by
        have : rank c + 1 ≤ 62 := by omega
        exact Nat.mul_le_mul_right _ this
      calc rank c * 62 ^ rest.length + base62Val rest
          < (rank c + 1) * 62 ^ rest.length := h1
        _ ≤ 62 * 62 ^ rest.length := h2
        _ = 62 ^ (rest.length + 1) := by ring

/-- The accumulating pass fails exactly on inputs with a character outside
the alphabet. -/
theorem suffixIndexAux_none {s : List Char} (hs : ¬ validSuffix s) :
    suffixIndexAux s = none := by
  by_contra h
  apply hs
  obtain ⟨n, hn⟩ : ∃ n, suffixIndexAux s = some n := by
    cases hv : suffixIndexAux s with
    | none => exact absurd hv h
    | some n => exact ⟨n, rfl⟩
  clear h hs
  induction s generalizing n with
  | nil => intro c hc; simp at hc
  | cons c rest ih =>
    intro x hx
    revert hn
    simp only [suffixIndexAux]
    cases hd : listIdx chars c with
    | none => intro h; simp at h
    | some d =>
      cases hr : suffixIndexAux rest with
      | none => intro h; simp at h
      | some m =>
        intro _
        rcases List.mem_cons.mp hx with h' | h'
        · subst h'
          exact mem_of_listIdx hd
        · exact ih m hr x h'

/-- Decoding the spec's base-62 value of a valid identifier recovers the
identifier. -/
theorem decodeAux_base62 :
    ∀ (s : List Char), validSuffix s → decodeAux (base62Val s) s.length = s := by
  intro s hs
  induction s with
  | nil => rfl
  | cons c rest ih =>
    have hc : c ∈ chars := hs c (List.mem_cons_self c rest)
    have hrest : validSuffix rest := fun x hx => hs x (List.mem_cons_of_mem _ hx)
    obtain ⟨d, hd⟩ := listIdx_of_mem hc
    have hrank : rank c = d := by simp [rank, hd]
    have hb : base62Val rest < 62 ^ rest.length := (suffixIndexAux_eq_some rest hrest).2
    have hpow : 0 < 62 ^ rest.length := Nat.pos_pow_of_pos _ (by norm_num)
    have hdiv : (rank c * 62 ^ rest.length + base62Val rest) / 62 ^ rest.length = rank c := by
      rw [Nat.mul_comm (rank c), Nat.mul_add_div hpow, Nat.div_eq_of_lt hb, Nat.add_zero]
    have hmod : (rank c * 62 ^ rest.length + base62Val rest) % 62 ^ rest.length
        = base62Val rest := by
      rw [Nat.mul_comm (rank c), Nat.mul_add_mod, Nat.mod_eq_of_lt hb]
    show decodeAux (rank c * 62 ^ rest.length + base62Val rest) (rest.length + 1)
        = c :: rest
    rw [decodeAux, hdiv, hmod, ih hrest, hrank, listIdx_getD (d := 'a') hd]

theorem lexPrec_length {x y : List Char} (h : LexPrec x y) : x.length = y.length := by
  induction h with
  | head a b s t hr hl => simp [hl]
  | tail a s t h ih => simp [ih]

/-- Strict monotonicity of the base-62 value along lexicographic precedence
of equal-length valid identifiers. -/
theorem base62Val_lt_of_lex {x y : List Char} (h : LexPrec x y)
    (hx : validSuffix x) (hy : validSuffix y) : base62Val x < base62Val y := by
  induction h with
  | head a b s t hr hl =>
    have hs : validSuffix s := fun u hu => hx u (List.mem_cons_of_mem _ hu)
    have hbs : base62Val s < 62 ^ s.length := (suffixIndexAux_eq_some s hs).2
    show rank a * 62 ^ s.length + base62Val s < rank b * 62 ^ t.length + base62Val t
    calc rank a * 62 ^ s.length + base62Val s
        < rank a * 62 ^ s.length + 62 ^ s.length := Nat.add_lt_add_left hbs _
      _ = (rank a + 1) * 62 ^ s.length := by ring
      _ ≤ rank b * 62 ^ s.length := Nat.mul_le_mul_right _ (by omega)
      _ = rank b * 62 ^ t.length := by rw [hl]
      _ ≤ rank b * 62 ^ t.length + base62Val t := Nat.le_add_right _ _
  | tail a s t h ih =>
    have hs : validSuffix s := fun u hu => hx u (List.mem_cons_of_mem _ hu)
    have ht : validSuffix t := fun u hu => hy u (List.mem_cons_of_mem _ hu)
    have hl : s.length = t.length := lexPrec_length h
    show rank a * 62 ^ s.length + base62Val s < rank a * 62 ^ t.length + base62Val t
    rw [hl]
    exact Nat.add_lt_add_left (ih hs ht) _

/-- On a valid identifier of the scanned length, `_url_suffix_to_index`
computes the spec's base-62 ordinal. -/
theorem url_index_eq {x : List Char} {L : Nat} (hL : x.length = L)
    (hv : validSuffix x) : url_suffix_to_index x L = base62Val x := by
  have := (suffixIndexAux_eq_some x hv).1
  simp [url_suffix_to_index, hL, this]

/-- C1: for every valid identifier of the scanned length (the maximal
all-last-symbol identifier included), decoding the ordinal computed by
`_url_suffix_to_index` recovers the identifier, and `_url_suffix_to_index`
is strictly monotone along lexicographic precedence in the fixed alphabet
order. -/
theorem C1_encode_decode_monotone (L : Nat) (x y : List Char)
    (hx : x.length = L) (hvx : validSuffix x)
    (hy : y.length = L) (hvy : validSuffix y) :
    decode (url_suffix_to_index x L) L = some x ∧
    (LexPrec x y → url_suffix_to_index x L < url_suffix_to_index y L) := by
  have hex := url_index_eq hx hvx
  have hey := url_index_eq hy hvy
  constructor
  · rw [hex]
    have hb : base62Val x < 62 ^ L := by
      have := (suffixIndexAux_eq_some x hvx).2
      rwa [hx] at this
    rw [decode, if_pos hb]
    have hdec := decodeAux_base62 x hvx
    rw [hx] at hdec
    rw [hdec]
  · intro hlex
    rw [hex, hey]
    exact base62Val_lt_of_lex hlex hvx hvy

theorem C1_witness :
    (decode (url_suffix_to_index ['9', '9'] 2) 2 = some ['9', '9'] ∧
      (LexPrec ['9', '9'] ['9', '9'] →
        url_suffix_to_index ['9', '9'] 2 < url_suffix_to_index ['9', '9'] 2)) ∧
    (decode (url_suffix_to_index ['a', 'b'] 2) 2 = some ['a', 'b'] ∧
      (LexPrec ['a', 'b'] ['b', 'a'] →
        url_suffix_to_index ['a', 'b'] 2 < url_suffix_to_index ['b', 'a'] 2)) ∧
    url_suffix_to_index ['a', 'b'] 2 < url_suffix_to_index ['b', 'a'] 2 :=
  ⟨C1_encode_decode_monotone 2 ['9', '9'] ['9', '9'] rfl (by decide) rfl (by decide),
   C1_encode_decode_monotone 2 ['a', 'b'] ['b', 'a'] rfl (by decide) rfl (by decide),
   (C1_encode_decode_monotone 2 ['a', 'b'] ['b', 'a'] rfl (by decide) rfl
      (by decide)).2 (LexPrec.head 'a' 'b' ['b'] ['a'] (by decide) rfl)⟩


theorem validSuffix_replicate_a (k : Nat) : validSuffix (List.replicate k 'a') := by
  intro c hc
  have h := List.eq_of_mem_replicate hc
  subst h
  decide

theorem base62Val_replicate_a (k : Nat) : base62Val (List.replicate k 'a') = 0 := by
  induction k with
  | zero => rfl
  | succ n ih =>
    show rank 'a' * 62 ^ (List.replicate n 'a').length + base62Val (List.replicate n 'a') = 0
    rw [ih]
    have : rank 'a' = 0 := by decide
    simp [this]

theorem base62Val_replicate_9 (k : Nat) :
    base62Val (List.replicate k '9') + 1 = 62 ^ k := by
  induction k with
  | zero => rfl
  | succ n ih =>
    show (rank '9' * 62 ^ (List.replicate n '9').length + base62Val (List.replicate n '9')) + 1
        = 62 ^ (n + 1)
    have h9 : rank '9' = 61 := by decide
    rw [List.length_replicate, h9, Nat.add_assoc, ih]
    ring

/-- The carry pass on a valid suffix either reports a carry (exactly on the
all-last-symbol suffix, resetting it to all-first-symbol), or succeeds with
a valid suffix of the same length whose base-62 value is one larger. -/
theorem incr3_spec :
    ∀ (x : List Char), validSuffix x →
      (x = List.replicate x.length '9' ∧
        incr3 x = .carry (List.replicate x.length 'a'))
      ∨ (∃ y, incr3 x = .ok y ∧ validSuffix y ∧ y.length = x.length ∧
          base62Val y = base62Val x + 1) := by
  intro x hx
  induction x with
  | nil => exact Or.inl ⟨rfl, rfl⟩
  | cons c rest ih =>
    have hc : c ∈ chars := hx c (List.mem_cons_self c rest)
    have hrest : validSuffix rest := fun u hu => hx u (List.mem_cons_of_mem _ hu)
    obtain ⟨d, hd⟩ := listIdx_of_mem hc
    have hdlt : d < 62 := by
      have := listIdx_lt hd
      rwa [chars_length] at this
    have hrank : rank c = d := by simp [rank, hd]
    rcases ih hrest with ⟨h9, hcarry⟩ | ⟨y, hok, hvy, hly, hby⟩
    · have hm : base62Val rest + 1 = 62 ^ rest.length := by
        have := base62Val_replicate_9 rest.length
        rwa [← h9] at this
      by_cases hlt : d + 1 < 62
      · refine Or.inr ⟨chars.getD (d + 1) 'a' :: List.replicate rest.length 'a',
          ?_, ?_, by simp, ?_⟩
        · show (match incr3 rest with
            | .ok r => IncrRes.ok (c :: r)
            | .bad => IncrRes.bad
            | .carry r =>
              match listIdx chars c with
              | none => IncrRes.bad
              | some d =>
                if d + 1 < 62 then IncrRes.ok (chars.getD (d + 1) 'a' :: r)
                else IncrRes.carry (chars.getD 0 'a' :: r)) = _
          rw [hcarry]
          simp only [hd]
          rw [if_pos hlt]
        · intro u hu
          rcases List.mem_cons.mp hu with h' | h'
          · subst h'
            exact getD_mem 'a' (by rw [chars_length]; exact hlt)
          · exact validSuffix_replicate_a rest.length u h'
        · show rank (chars.getD (d + 1) 'a') * 62 ^ (List.replicate rest.length 'a').length
              + base62Val (List.replicate rest.length 'a')
            = (rank c * 62 ^ rest.length + base62Val rest) + 1
          have hgd : rank (chars.getD (d + 1) 'a') = d + 1 := by
            rw [rank, listIdx_chars_getD (d + 1) hlt]
            rfl
          rw [List.length_replicate, base62Val_replicate_a, hgd, hrank,
            Nat.add_assoc, hm]
          ring
      · have hd61 : d = 61 := by omega
        have hc9 : c = '9' := by
          have := listIdx_getD (d := 'a') hd
          rw [hd61] at this
          have h61 : chars.getD 61 'a' = '9' := by decide
          rw [h61] at this
          exact this.symm
        refine Or.inl ⟨?_, ?_⟩
        · show c :: rest = List.replicate (rest.length + 1) '9'
          rw [List.replicate_succ, hc9, ← h9]
        · show (match incr3 rest with
            | .ok r => IncrRes.ok (c :: r)
            | .bad => IncrRes.bad
            | .carry r =>
              match listIdx chars c with
              | none => IncrRes.bad
              | some d =>
                if d + 1 < 62 then IncrRes.ok (chars.getD (d + 1) 'a' :: r)
                else IncrRes.carry (chars.getD 0 'a' :: r)) = _
          rw [hcarry]
          simp only [hd]
          rw [if_neg hlt]
          have ha : chars.getD 0 'a' = 'a' := by decide
          rw [ha]
          show IncrRes.carry ('a' :: List.replicate rest.length 'a')
              = IncrRes.carry (List.replicate (rest.length + 1) 'a')
          rw [List.replicate_succ]
    · refine Or.inr ⟨c :: y, ?_, ?_, by simp [hly], ?_⟩
      · show (match incr3 rest with
          | .ok r => IncrRes.ok (c :: r)
          | .bad => IncrRes.bad
          | .carry r =>
            match listIdx chars c with
            | none => IncrRes.bad
            | some d =>
              if d + 1 < 62 then IncrRes.ok (chars.getD (d + 1) 'a' :: r)
              else IncrRes.carry (chars.getD 0 'a' :: r)) = _
        rw [hok]
      · intro u hu
        rcases List.mem_cons.mp hu with h' | h'
        · subst h'; exact hc
        · exact hvy u h'
      · show rank c * 62 ^ y.length + base62Val y
            = (rank c * 62 ^ rest.length + base62Val rest) + 1
        rw [hly, hby]
        ring

/-- C2: on a valid identifier of the scanned length, `_get_next_url_suffix`
returns exactly `decode (encode x + 1)` (as options, both being `none` past
the end of the sequence), and it returns `none` precisely when the
identifier has the last alphabet symbol in every position. -/
theorem C2_successor_decode (L : Nat) (x : List Char)
    (hx : x.length = L) (hv : validSuffix x) :
    _get_next_url_suffix x L = decode (url_suffix_to_index x L + 1) L ∧
    (_get_next_url_suffix x L = none ↔ x = List.replicate L '9') := by
  have hel := url_index_eq hx hv
  rcases incr3_spec x hv with ⟨h9, hcarry⟩ | ⟨y, hok, hvy, hly, hby⟩
  · rw [hx] at h9
    have hm : base62Val x + 1 = 62 ^ L := by
      have := base62Val_replicate_9 L
      rwa [← h9] at this
    have hnext : _get_next_url_suffix x L = none := by
      simp [_get_next_url_suffix, hx, hcarry]
    have hdec : decode (url_suffix_to_index x L + 1) L = none := by
      rw [hel, decode, if_neg]
      rw [hm]
      omega
    exact ⟨by rw [hnext, hdec], ⟨fun _ => h9, fun _ => hnext⟩⟩
  · have hnext : _get_next_url_suffix x L = some y := by
      simp [_get_next_url_suffix, hx, hok]
    have hbound : base62Val y < 62 ^ L := by
      have := (suffixIndexAux_eq_some y hvy).2
      rwa [hly, hx] at this
    have hdec : decode (url_suffix_to_index x L + 1) L = some y := by
      rw [hel, ← hby, decode, if_pos hbound]
      have hdecode := decodeAux_base62 y hvy
      rw [hly, hx] at hdecode
      rw [hdecode]
    refine ⟨by rw [hnext, hdec], ⟨by simp [hnext], fun h => ?_⟩⟩
    exfalso
    have hm : base62Val x + 1 = 62 ^ L := by
      have := base62Val_replicate_9 L
      rwa [← h] at this
    rw [hby] at hbound
    omega

theorem C2_witness :
    _get_next_url_suffix ['a'] 1 = decode (url_suffix_to_index ['a'] 1 + 1) 1 ∧
    (_get_next_url_suffix ['a'] 1 = none ↔ ['a'] = List.replicate 1 '9') :=
  C2_successor_decode 1 ['a'] rfl (by decide)

/-- C7 counterexample: `_url_suffix_to_index` does not fail on a symbol
outside the alphabet or on a length mismatch; it returns the ordinal 0 in
both cases, the same value it returns for the valid all-first-symbol
identifier, so such inputs do receive an ordinal. -/
theorem C7_counterexample :
    ¬ validSuffix ['!'] ∧
    url_suffix_to_index ['!'] 1 = 0 ∧
    url_suffix_to_index ['a'] 2 = 0 ∧
    url_suffix_to_index ['!'] 1 = url_suffix_to_index ['a'] 1 := by
  exact ⟨by decide, by decide, by decide, by decide⟩

/-- C7 (amended): `_url_suffix_to_index` maps a valid identifier of the
scanned length to its base-62 ordinal, most-significant symbol first, with
each symbol's alphabet position as digit value; on a length mismatch or a
symbol outside the alphabet it does not fail but returns 0. -/
theorem C7_encode_total_zero (x : List Char) (L : Nat) :
    url_suffix_to_index x L =
      if x.length = L ∧ validSuffix x then base62Val x else 0 := by
  by_cases hL : x.length = L
  · by_cases hv : validSuffix x
    · rw [if_pos ⟨hL, hv⟩]
      exact url_index_eq hL hv
    · rw [if_neg (by tauto)]
      simp [url_suffix_to_index, hL, suffixIndexAux_none hv]
  · rw [if_neg (by tauto)]
    simp [url_suffix_to_index, hL]


theorem resumeStep_eq (L : Nat) (acc : Option String) (row : List String) :
    resumeStep L acc row =
      match matchingRecord L row with
      | some s => some s
      | none => acc := by
  cases row with
  | nil => rfl
  | cons f rest =>
    simp only [resumeStep, matchingRecord]
    by_cases h1 : containsSubstr f "/goo.gl/" = true
    · rw [if_pos h1, if_pos h1]
      by_cases h2 : ((strSplitOn f "/goo.gl/").getLastD f).length = L
      · rw [if_pos h2, if_pos h2]
      · rw [if_neg h2, if_neg h2]
    · rw [if_neg h1, if_neg h1]

theorem findSome?_append_singleton {α β : Type} (f : α → Option β) :
    ∀ (l : List α) (x : α),
      (l ++ [x]).findSome? f =
        match l.findSome? f with
        | some b => some b
        | none => f x := by
  intro l x
  induction l with
  | nil =>
    show List.findSome? f [x] = _
    cases h : f x <;> simp [List.findSome?, h]
  | cons a as ih =>
    simp only [List.cons_append, List.findSome?]
    cases f a <;> simp [ih]

theorem foldl_resumeStep (L : Nat) :
    ∀ (records : List (List String)) (acc : Option String),
      records.foldl (resumeStep L) acc =
        match records.reverse.findSome? (matchingRecord L) with
        | some s => some s
        | none => acc := by
  intro records
  induction records with
  | nil => intro acc; simp
  | cons r rest ih =>
    intro acc
    simp only [List.foldl_cons, List.reverse_cons]
    rw [ih, findSome?_append_singleton]
    cases h : rest.reverse.findSome? (matchingRecord L) with
    | some s => rfl
    | none => exact resumeStep_eq L acc r

theorem matchingRecord_length {L : Nat} {row : List String} {s : String}
    (h : matchingRecord L row = some s) : s.length = L := by
  cases row with
  | nil => simp [matchingRecord] at h
  | cons f rest =>
    simp only [matchingRecord] at h
    by_cases h1 : containsSubstr f "/goo.gl/" = true
    · rw [if_pos h1] at h
      by_cases h2 : ((strSplitOn f "/goo.gl/").getLastD f).length = L
      · rw [if_pos h2] at h
        rw [← Option.some.inj h]
        exact h2
      · rw [if_neg h2] at h
        cases h
    · rw [if_neg h1] at h
      cases h

/-- C3: on a ledger of a header row followed by records, for any requested
length from the configuration surface (a positive integer),
`_find_last_processed_url` returns the identifier of the last record in
file order whose extracted identifier (the text after the last separator
occurrence in the first field) has the requested length — the first match
over the reversed record list, which reflects write recency and not
ordinal order — and returns `none` exactly when no record matches.  (At a
positive length every matched identifier is nonempty, so the truthiness
re-check of source line 76 never discards it.) -/
theorem C3_find_resume_last_in_file (header : List String)
    (records : List (List String)) (L : Nat) (hL : 0 < L) :
    _find_last_processed_url (header :: records) L =
      records.reverse.findSome? (matchingRecord L) ∧
    (_find_last_processed_url (header :: records) L = none ↔
      ∀ row ∈ records, matchingRecord L row = none) := by
  have hmain : _find_last_processed_url (header :: records) L =
      records.reverse.findSome? (matchingRecord L) := by
    show (match records.foldl (resumeStep L) none with
      | some last_url => if last_url ≠ "" then some last_url else none
      | none => none) = _
    rw [foldl_resumeStep]
    cases h : records.reverse.findSome? (matchingRecord L) with
    | none => rfl
    | some s =>
      obtain ⟨row, hrow, hmr⟩ := List.exists_of_findSome?_eq_some h
      have hlen := matchingRecord_length hmr
      have hs : s ≠ "" := by
        intro he
        rw [he] at hlen
        simp at hlen
        omega
      simp [hs]
  refine ⟨hmain, ?_⟩
  rw [hmain, List.findSome?_eq_none_iff]
  constructor
  · intro h row hr
    exact h row (List.mem_reverse.mpr hr)
  · intro h row hr
    exact h row (List.mem_reverse.mp hr)

theorem C3_witness :
    (_find_last_processed_url
        [["hdr"], ["https://goo.gl/aaaaaa"], ["https://goo.gl/aaaaab"]] 6 =
      ([["https://goo.gl/aaaaaa"], ["https://goo.gl/aaaaab"]]).reverse.findSome?
        (matchingRecord 6) ∧
     (_find_last_processed_url
        [["hdr"], ["https://goo.gl/aaaaaa"], ["https://goo.gl/aaaaab"]] 6 = none ↔
      ∀ row ∈ [["https://goo.gl/aaaaaa"], ["https://goo.gl/aaaaab"]],
        matchingRecord 6 row = none)) ∧
    _find_last_processed_url
        [["hdr"], ["https://goo.gl/aaaaaa"], ["https://goo.gl/aaaaab"]] 6
      = some "aaaaab" :=
  ⟨C3_find_resume_last_in_file ["hdr"]
      [["https://goo.gl/aaaaaa"], ["https://goo.gl/aaaaab"]] 6 (by decide),
   by decide⟩

/-- C4 counterexample: on a timeout and on a connection failure the code's
statusTags are `request_timeout` and `connection_failed`, not the claim's
`timeout` and `connection_error`. -/
theorem C4_counterexample :
    (resolve_goo_gl_url (.err .timeout)).2 = "request_timeout" ∧
    "request_timeout" ≠ "timeout" ∧
    (resolve_goo_gl_url (.err .connectionError)).2 = "connection_failed" ∧
    "connection_failed" ≠ "connection_error" := by
  exact ⟨rfl, by decide, rfl, by decide⟩

/-- C4 (amended): every transport-level failure is returned (not raised)
as a sentinel destination naming the failure kind, with statusTag
`request_timeout` for a timeout, `connection_failed` for a connection
failure, and `request_exception` for any other transport exception. -/
theorem C4_transport_tags (msg : String) :
    resolve_goo_gl_url (.err .timeout) = ("TIMEOUT", "request_timeout") ∧
    resolve_goo_gl_url (.err .connectionError)
      = ("CONNECTION_ERROR", "connection_failed") ∧
    resolve_goo_gl_url (.err (.requestException msg))
      = ("REQUEST_ERROR: " ++ msg, "request_exception") :=
  ⟨rfl, rfl, rfl⟩

/-- C5 counterexample: a candidate of sufficient length, with an https
scheme and a host outside the deny-list, is nevertheless rejected because
a deny-listed domain appears in its query string — the deny-list test is a
substring test over the whole URL, not a host test. -/
theorem C5_counterexample :
    10 ≤ ("https://example.com/a?q=goo.gl/x" : String).length ∧
    strStarts "https://example.com/a?q=goo.gl/x" "https://" = true ∧
    urlHost "https://example.com/a?q=goo.gl/x" = "example.com" ∧
    ("example.com" : String) ∉ skip_domains ∧
    is_valid_redirect_url "https://example.com/a?q=goo.gl/x" = false := by
  exact ⟨by decide, by decide, by decide, by decide, by decide⟩

/-- C5 (amended): a candidate is accepted iff its length is at least 10, it
begins with an HTTP or HTTPS scheme, and no deny-listed domain occurs as a
substring anywhere in the lowercased URL (host, path or query alike). -/
theorem C5_validity_iff (url : String) :
    is_valid_redirect_url url = true ↔
      (10 ≤ url.length ∧
       (∀ domain ∈ skip_domains, containsSubstr (strLower url) domain = false) ∧
       (strStarts url "http://" = true ∨ strStarts url "https://" = true)) := by
  simp only [is_valid_redirect_url]
  split_ifs with h1 h2 h3
  · simp only [Bool.false_eq_true, false_iff]
    rintro ⟨hlen, -, -⟩
    omega
  · simp only [Bool.false_eq_true, false_iff]
    rintro ⟨-, hall, -⟩
    obtain ⟨d, hd, hc⟩ := List.any_eq_true.mp h2
    rw [hall d hd] at hc
    cases hc
  · simp only [Bool.false_eq_true, false_iff]
    rintro ⟨-, -, hs⟩
    rcases hs with hs | hs <;> simp [hs] at h3
  · simp only [true_iff]
    refine ⟨by omega, ?_, ?_⟩
    · intro d hd
      by_contra hc
      exact h2 (List.any_eq_true.mpr ⟨d, hd, by simpa using hc⟩)
    · by_cases ha : strStarts url "http://" = true
      · exact Or.inl ha
      · by_cases hb : strStarts url "https://" = true
        · exact Or.inr hb
        · exfalso
          apply h3
          simp at ha hb
          simp [ha, hb]

/-- C10: any 200 response whose body contains the not-found markers (the
exact phrase, or `not found` case-insensitively) classifies as
`("NOT_FOUND", "link_not_found")`, the not-found test being evaluated
before the warning-page test inside the 200 branch. -/
theorem C10_not_found_priority (r : HttpResponse) (h200 : r.status = 200)
    (hnf : (containsSubstr r.body "Dynamic Link Not Found" ||
        containsSubstr (strLower r.body) "not found") = true) :
    resolve_goo_gl_url (.ok r) = ("NOT_FOUND", "link_not_found") := by
  simp [resolve_goo_gl_url, h200, hnf]

theorem C10_witness :
    resolve_goo_gl_url (.ok ⟨200, none,
      "not found. This link will no longer work \"redirect_url\":\"https://example.org/abcd\"",
      "https://goo.gl/x"⟩) = ("NOT_FOUND", "link_not_found") ∧
    _extract_redirect_from_warning_page
      "not found. This link will no longer work \"redirect_url\":\"https://example.org/abcd\""
      = some "https://example.org/abcd" ∧
    containsSubstr
      "not found. This link will no longer work \"redirect_url\":\"https://example.org/abcd\""
      "This link will no longer work" = true :=
  ⟨C10_not_found_priority ⟨200, none,
      "not found. This link will no longer work \"redirect_url\":\"https://example.org/abcd\"",
      "https://goo.gl/x"⟩ rfl (by decide),
   by decide, by decide⟩

theorem tier1Matches_eq :
    ∀ ms : List String,
      tier1Matches ms = ms.findSome? (fun m =>
        if is_valid_redirect_url (decodeCandidate m) then
          some (decodeCandidate m)
        else none) := by
  intro ms
  induction ms with
  | nil => rfl
  | cons m rest ih =>
    simp only [tier1Matches, List.findSome?]
    by_cases h : is_valid_redirect_url (decodeCandidate m) = true
    · simp [h]
    · simp [h, ih]

theorem tier1Loop_eq :
    ∀ (ps : List RE) (body : String),
      tier1Loop ps body = ps.findSome? (fun p => tier1Matches (findall p body)) := by
  intro ps body
  induction ps with
  | nil => rfl
  | cons p rest ih =>
    simp only [tier1Loop, List.findSome?]
    cases tier1Matches (findall p body) <;> simp [ih]

theorem fallback_fold_eq :
    ∀ (l acc : List String),
      l.foldl (fun acc url =>
          if is_valid_redirect_url url then acc ++ [html_unescape url] else acc)
        acc =
      acc ++ (l.filter (fun url => is_valid_redirect_url url)).map html_unescape := by
  intro l
  induction l with
  | nil => intro acc; simp
  | cons u rest ih =>
    intro acc
    simp only [List.foldl_cons, List.filter_cons]
    by_cases h : is_valid_redirect_url u = true
    · rw [ih]
      simp [h]
    · rw [ih]
      simp [h]

/-- C6 counterexample: on a body whose only candidate is the bare token
`http://a&amp;`, the fallback tier validates the RAW token (13 characters,
passing every check) and then returns its entity-decoded form `http://a&`,
which itself fails validation (9 characters) — so neither the escaped
separators nor the HTML entities are decoded before the validity check in
the fallback tier. -/
theorem C6_counterexample :
    _extract_redirect_from_warning_page "http://a&amp;" = some "http://a&" ∧
    is_valid_redirect_url "http://a&" = false := by
  exact ⟨by decide, by decide⟩

/-- C6 (amended): the extractor is the two-tier composition in which the
first tier normalizes (strip, decode the escaped separators, decode HTML
entities) each strategy match before validating and returns the first
validated one in pattern-priority order, while the fallback tier validates
the raw bare http(s) tokens without any decoding and returns the first
raw-valid token after HTML-entity decoding only; it returns `none` when
neither tier yields a candidate. -/
theorem C6_two_tier_structure (body : String) :
    _extract_redirect_from_warning_page body =
      match warning_patterns.findSome? (fun p =>
          (findall p body).findSome? (fun m =>
            if is_valid_redirect_url (decodeCandidate m) then
              some (decodeCandidate m)
            else none)) with
      | some url => some url
      | none =>
        (((findall url_token_re body).filter
            (fun url => is_valid_redirect_url url)).map html_unescape).head? := by
  simp only [_extract_redirect_from_warning_page, tier1Loop_eq, tier1Matches_eq]
  cases h : warning_patterns.findSome? (fun p =>
      (findall p body).findSome? (fun m =>
        if is_valid_redirect_url (decodeCandidate m) then
          some (decodeCandidate m)
        else none)) with
  | some u => simp [h]
  | none => simp [h, fallback_fold_eq]

/-- C8: with the skip flag set, `save_result` leaves the ledger unchanged
on a not-found statusTag, while the loop's counter updates still increment
`processed_count` unconditionally and increment `found_count` exactly for
statusTags outside the not-found set. -/
theorem C8_skip_not_found (st : ScanState) (short_url dest status ts : String) :
    ((status = "404_error" ∨ status = "link_not_found") →
      save_result true st.ledger short_url dest status ts = st.ledger ∧
      (scan_step true ts st short_url dest status).ledger = st.ledger) ∧
    (scan_step true ts st short_url dest status).processed_count
        = st.processed_count + 1 ∧
    ((scan_step true ts st short_url dest status).found_count
        = st.found_count + 1 ↔
      ¬ (status = "404_error" ∨ status = "link_not_found")) := by
  refine ⟨fun h => ?_, rfl, ?_⟩
  · have hsave : save_result true st.ledger short_url dest status ts = st.ledger := by
      rw [save_result, if_pos ⟨rfl, h⟩]
    exact ⟨hsave, by simp [scan_step, hsave]⟩
  · show (if status ∉ (["link_not_found", "404_error"] : List String) then
        st.found_count + 1 else st.found_count) = st.found_count + 1 ↔ _
    by_cases h : status = "404_error" ∨ status = "link_not_found"
    · have hmem : status ∈ (["link_not_found", "404_error"] : List String) := by
        rcases h with h | h <;> simp [h]
      rw [if_neg (not_not_intro hmem)]
      exact ⟨fun hx => absurd hx (by omega), fun hn => absurd h hn⟩
    · have hmem : status ∉ (["link_not_found", "404_error"] : List String) := by
        intro hm
        simp only [List.mem_cons, List.not_mem_nil, or_false] at hm
        rcases hm with hm | hm
        · exact h (Or.inr hm)
        · exact h (Or.inl hm)
      rw [if_pos hmem]
      exact ⟨fun _ => h, fun _ => rfl⟩

theorem C8_witness :
    save_result true [["r"]] "s" "d" "404_error" "t" = [["r"]] ∧
    (scan_step true "t" ⟨[["r"]], 5, 2⟩ "s" "d" "404_error").processed_count = 6 ∧
    ¬ ((scan_step true "t" ⟨[["r"]], 5, 2⟩ "s" "d" "404_error").found_count
        = 2 + 1) :=
  ⟨((C8_skip_not_found ⟨[["r"]], 5, 2⟩ "s" "d" "404_error" "t").1 (Or.inl rfl)).1,
   (C8_skip_not_found ⟨[["r"]], 5, 2⟩ "s" "d" "404_error" "t").2.1,
   fun hx => (C8_skip_not_found ⟨[["r"]], 5, 2⟩ "s" "d" "404_error" "t").2.2.mp hx
     (Or.inl rfl)⟩

theorem allCombos_length : ∀ (n : Nat), ∀ combo ∈ allCombos n, combo.length = n := by
  intro n
  induction n with
  | zero =>
    intro c hc
    simp only [allCombos, List.mem_singleton] at hc
    subst hc
    rfl
  | succ m ih =>
    intro c hc
    simp only [allCombos, List.mem_flatMap, List.mem_map] at hc
    obtain ⟨a, _, c', hc', rfl⟩ := hc
    simp [ih c' hc']

theorem scanLoop_skip (resolver : String → String × String) (skip_404 : Bool)
    (ts : String) (s : String) :
    ∀ (combos : List (List Char)) (st : ScanState),
      (∀ combo ∈ combos, String.mk combo ≠ s) →
      scanLoop resolver skip_404 ts (some s) combos st false = st := by
  intro combos
  induction combos with
  | nil => intro st _; rfl
  | cons c rest ih =>
    intro st h
    have hc : String.mk c ≠ s := h c (List.mem_cons_self c rest)
    simp only [scanLoop]
    rw [if_pos ⟨trivial, fun he => hc (Option.some.inj he)⟩]
    exact ih st (fun combo hm => h combo (List.mem_cons_of_mem _ hm))

/-- C9 (amended): a resume identifier whose length differs from the scan
length is not surfaced as an error: the loop never matches the start
position, so the call resolves no identifier, writes no ledger record, and
returns the state unchanged as a normal completion. -/
theorem C9_silent_skip (resolver : String → String × String) (skip_404 : Bool)
    (ts : String) (file_rows : List (List String)) (L : Nat) (s : String)
    (st : ScanState) (h : s.length ≠ L) :
    scan_url_combinations resolver skip_404 ts file_rows L (some s) st = st := by
  show scanLoop resolver skip_404 ts (some s) (allCombos L) st false = st
  apply scanLoop_skip
  intro combo hm heq
  apply h
  have h1 : combo.length = L := allCombos_length L combo hm
  have h2 : (String.mk combo).length = combo.length := rfl
  rw [← heq, h2, h1]

/-- C9 counterexample: a resume identifier of the wrong length (length 2
for a scan of length 1) is not surfaced to the caller as an invalid
configuration: the call completes normally, returning the unchanged state
— the caller cannot distinguish it from an ordinary no-op run. -/
theorem C9_counterexample :
    scan_url_combinations (fun _ => ("NOT_FOUND", "404_error")) false "" [] 1
      (some "xy") ⟨[], 0, 0⟩ = ⟨[], 0, 0⟩ := by
  decide

theorem C9_witness :
    scan_url_combinations (fun _ => ("", "")) false "" [] 1 (some "ab")
      ⟨[["row"]], 3, 1⟩ = ⟨[["row"]], 3, 1⟩ :=
  C9_silent_skip (fun _ => ("", "")) false "" [] 1 "ab" ⟨[["row"]], 3, 1⟩ (by decide)

end GooGl
